import Mathlib

/-!
Shallow embedding of the google-calendar-logger repository
(src/unnamed/part_000, the current revision of the GoogleCalendarLogger
class).  Times are epoch milliseconds (`Int`); the `updated` and `created`
wire timestamps of a stored event are modelled by `TimeVal`, which
distinguishes a missing field (JS undefined, falsy) from a malformed one
(a non-empty string that the Date constructor cannot parse, truthy but
NaN-valued) and from a well-formed one.
-/

namespace GCalLogger

/-- Wire timestamp as seen by `hasInactivity`: absent, unparsable, or a
concrete epoch-milliseconds instant. -/
inductive TimeVal where
  | missing : TimeVal
  | malformed : TimeVal
  | ms : Int → TimeVal
deriving DecidableEq, Repr

/-- JS disjunction `a || b` on wire timestamps: a missing field
(undefined) is falsy, any non-empty string (well-formed or not) is
truthy. -/
def jsOrTime (a b : TimeVal) : TimeVal :=
  match a with
  | .missing => b
  | v => v

/-- Numeric coercion of `new Date(v)`: a parsable timestamp yields its
epoch milliseconds, anything else yields NaN (modelled as `none`). -/
def toNum : TimeVal → Option Int
  | .ms t => some t
  | _ => none

/-- Calendar event, with the fields the logger reads and writes.
`completed` models the private extended property of that name: the outer
`Option` is `none` when the property chain is broken (attribute access
throws, and the scanner catches the exception), the inner `Option` is
`none` when the attribute itself is absent. -/
structure Event where
  id : Nat
  summary : String
  description : String
  startMs : Int
  endMs : Int
  completed : Option (Option String)
  created : TimeVal
  updated : TimeVal
deriving DecidableEq, Repr

/-- Logger configuration after construction: `minutesUntilInactivity`
(validated positive, default 10) and the string templates applied to the
calendar summary by `getLogName`. -/
structure Config where
  calendarSummary : String
  minutesUntilInactivity : Nat
  activityStarted : String → String
  activityInProgress : String → String
  activityConcluded : String → String
  activityLogged : String → String
  closedDueToInactivity : String → String

/-- Getter `msUntilInactivity`: `minutesUntilInactivity * 1000 * 60`. -/
def Config.msUntilInactivity (cfg : Config) : Int :=
  (cfg.minutesUntilInactivity : Int) * 1000 * 60

/-- Default string templates, from `getDefaultStrings`. -/
def defaultStrings (calendarSummary : String) : Config :=
  { calendarSummary := calendarSummary
    minutesUntilInactivity := 10
    activityStarted := fun projectName => "Started working on " ++ projectName
    activityInProgress := fun projectName => "Working on " ++ projectName
    activityConcluded := fun projectName => "Worked on " ++ projectName
    activityLogged := fun projectName => "Activity in " ++ projectName
    closedDueToInactivity := fun _ => "(closed due to inactivity)" }

/-- Current wall-clock instant as the logger samples it
(`getCurrentTime` plus the Date accessors used by `addToDescription`):
epoch milliseconds plus the local-time hour and minute fields. -/
structure Clock where
  ms : Int
  hours : Nat
  minutes : Nat
deriving DecidableEq, Repr

/-!
Section: `hasInactivity` (part_000 lines 476-480).  The source computes
the numeric value of `updated || created` and returns whether
`currentTime` minus that value strictly exceeds `msUntilInactivity`;
when the value is NaN the JS comparison is false.
-/

/-- Embedding of `hasInactivity`. -/
def hasInactivity (cfg : Config) (latestIncompleteLogEvent : Event) (currentTime : Int) : Bool :=
  match toNum (jsOrTime latestIncompleteLogEvent.updated latestIncompleteLogEvent.created) with
  | some lastActivity => currentTime - lastActivity > cfg.msUntilInactivity
  | none => false

/-!
Section: `addToDescription` (part_000 lines 460-470).  The source appends
a newline to a non-empty prior description, renders the hour and minute
each as the last two characters of the digit string prefixed with a zero,
and appends one line `HH:MM – activity`.
-/

/-- Decimal digit character, as JS string interpolation renders `n % 10`. -/
def digitChar (n : Nat) : Char :=
  match n with
  | 0 => '0' | 1 => '1' | 2 => '2' | 3 => '3' | 4 => '4'
  | 5 => '5' | 6 => '6' | 7 => '7' | 8 => '8' | 9 => '9'
  | _ => '*'

/-- Accumulator loop for the decimal rendering of a natural number. -/
def natReprAux : Nat → Nat → List Char → List Char
  | 0, _, acc => acc
  | fuel + 1, n, acc =>
    let acc' := digitChar (n % 10) :: acc
    if n < 10 then acc' else natReprAux fuel (n / 10) acc'

/-- Decimal rendering of a natural number (JS template interpolation of a
non-negative integer), most significant digit first. -/
def natRepr (n : Nat) : List Char :=
  natReprAux (n + 1) n []

/-- JS zero-pad idiom: prepend a zero digit to the decimal rendering and
slice off the last two characters. -/
def jsPad2 (n : Nat) : List Char :=
  let s := '0' :: natRepr n
  s.drop (s.length - 2)

/-- Characters of one freshly appended activity line `HH:MM – activity`. -/
def timeLineChars (date : Clock) (activity : String) : List Char :=
  jsPad2 date.hours ++ (':' :: (jsPad2 date.minutes ++ (' ' :: '–' :: ' ' :: activity.data)))

/-- Embedding of `addToDescription`. -/
def addToDescription (date : Clock) (activity : String) (description : String) : String :=
  let description := if description ≠ "" then description ++ "\n" else description
  description ++ String.mk (timeLineChars date activity)

/-- Last newline-separated line of a character list. -/
def lastLineChars (l : List Char) : List Char :=
  (l.reverse.takeWhile (fun c => c ≠ '\n')).reverse

/-- Parse an activity message back out of a description: take the last
line and strip the 8-character `HH:MM – ` prefix. -/
def parseLastLine (s : String) : String :=
  String.mk ((lastLineChars s.data).drop 8)

/-- Newline-split of a character list into its lines. -/
def splitLines : List Char → List (List Char)
  | [] => [[]]
  | c :: cs =>
    if c = '\n' then [] :: splitLines cs
    else
      match splitLines cs with
      | [] => [[c]]
      | l :: ls => (c :: l) :: ls

/-!
Section: the open-marker scan of `getLatestIncompleteLogEvent`
(part_000 lines 434-455).
-/

/-- Find-predicate of the scan: destructure the private extended
properties and compare the `completed` attribute against the string
literal false; a broken property chain (the caught exception) or a
missing or different-valued attribute yields a falsy result. -/
def eventIsOpen (event : Event) : Bool :=
  match event.completed with
  | some (some s) => s = "false"
  | _ => false

/-- Two rejection reasons of the scan: the listed window held no events
at all, or it held events but none carried the open marker. -/
inductive ResolverError where
  | foundNoEvents : ResolverError
  | noIncompleteEvent : ResolverError
deriving DecidableEq, Repr

/-- Errors surfaced by the logger operations. -/
inductive LogError where
  | transport : String → LogError
  | resolver : ResolverError → LogError
  | outOfFuel : LogError
deriving DecidableEq, Repr

/-- Result of the events-list call: a transport failure or the item list
(ascending by start time). -/
inductive ListResponse where
  | err : String → ListResponse
  | ok : List Event → ListResponse

/-- Response handler of `getLatestIncompleteLogEvent` (part_000 lines
428-456): propagate a transport error; on an empty item list reject with
`foundNoEvents`; otherwise scan the reversed list for the first
open-marked event and reject with `noIncompleteEvent` when none
matches. -/
def getLatestIncompleteLogEvent : ListResponse → Except LogError Event
  | .err m => .error (.transport m)
  | .ok events =>
    if events.isEmpty then .error (.resolver .foundNoEvents)
    else
      match events.reverse.find? eventIsOpen with
      | some e => .ok e
      | none => .error (.resolver .noIncompleteEvent)

/-!
Section: the remote store and the controller operations.
-/

/-- Event collection of the calendar, with the id counter of the server.
`events` is kept in insertion order; insertion appends, patching rewrites
in place. -/
structure Store where
  events : List Event
  nextId : Nat
deriving Repr

/-- Partial event update, as passed to the patch call: only the fields
present in the resource object change.  `completed` carries the string
written to the private `completed` extended property. -/
structure EventPatch where
  summary : Option String := none
  description : Option String := none
  startMs : Option Int := none
  endMs : Option Int := none
  completed : Option String := none
deriving Repr

/-- Server-side application of a patch: provided fields replace the old
ones, absent fields are kept, and the server stamps `updated`. -/
def applyPatch (p : EventPatch) (now : Int) (e : Event) : Event :=
  { e with
    summary := p.summary.getD e.summary
    description := p.description.getD e.description
    startMs := p.startMs.getD e.startMs
    endMs := p.endMs.getD e.endMs
    completed :=
      match p.completed with
      | some s => some (some s)
      | none => e.completed
    updated := .ms now }

/-- Patch call of the events API: update the event(s) carrying `eventId`. -/
def patchStore (s : Store) (eventId : Nat) (p : EventPatch) (now : Int) : Store :=
  ⟨s.events.map (fun e => if e.id = eventId then applyPatch p now e else e), s.nextId⟩

/-- Look an event up by id. -/
def Store.findById (s : Store) (eventId : Nat) : Option Event :=
  s.events.find? (fun e => e.id = eventId)

/-- Store sanity: every stored id is below the id counter of the server
and ids are unique.  Both hold for every store the server itself
builds. -/
def Store.wf (s : Store) : Prop :=
  (∀ e ∈ s.events, e.id < s.nextId) ∧ (s.events.map Event.id).Nodup

/-- Embedding of `getLogName`: apply a string template to the calendar
summary. -/
def getLogName (cfg : Config) (logName : String → String) : String :=
  logName cfg.calendarSummary

/-- Lookback window of the list call inside `getLatestIncompleteLogEvent`:
`1000 * 60 * 60 * 24 * 7` milliseconds. -/
def msLookbackWindow : Int := 1000 * 60 * 60 * 24 * 7

/-- List call with timeMin seven days back, timeMax now, ordered by start
time: the events whose start lies in the window, sorted ascending by
start time (the only ordering the API offers). -/
def listEvents (currentTime : Clock) (s : Store) : List Event :=
  (s.events.filter (fun e =>
    decide (currentTime.ms - msLookbackWindow ≤ e.startMs ∧ e.startMs ≤ currentTime.ms))).mergeSort
    (fun a b => decide (a.startMs ≤ b.startMs))

/-- Embedding of `getLatestIncompleteLogEvent` run against the store,
transport succeeding. -/
def resolveLatestIncomplete (currentTime : Clock) (s : Store) : Except LogError Event :=
  getLatestIncompleteLogEvent (.ok (listEvents currentTime s))

/-- Fresh event inserted by `logStart`: titled with `activityStarted`,
seeded with its first description line, a one-second placeholder
duration and the open marker; the server assigns `nid` and stamps
`created` and `updated`. -/
def startEvent (cfg : Config) (t : Clock) (nid : Nat) : Event :=
  { id := nid
    summary := getLogName cfg cfg.activityStarted
    description := addToDescription t (getLogName cfg cfg.activityStarted) ""
    startMs := t.ms
    endMs := t.ms + 1000
    completed := some (some "false")
    created := .ms t.ms
    updated := .ms t.ms }

/-- Embedding of `logStart` (part_000 lines 208-252). -/
def logStart (cfg : Config) (t : Clock) (s : Store) : Store :=
  ⟨s.events ++ [startEvent cfg t s.nextId], s.nextId + 1⟩

/-- Patch resource built by `logEndDueToInactivity`: summary set to
`activityConcluded`, the inactivity-reason line (`activityConcluded`
followed by `closedDueToInactivity`) appended to the description of the
resolved event, marker set to the string true; no start and no end
field. -/
def closePatch (cfg : Config) (activityTime : Clock)
    (latestIncompleteLogEvent : Event) : EventPatch :=
  { summary := some (getLogName cfg cfg.activityConcluded)
    description := some (addToDescription activityTime
      (getLogName cfg cfg.activityConcluded ++ " " ++ getLogName cfg cfg.closedDueToInactivity)
      latestIncompleteLogEvent.description)
    completed := some "true" }

/-- Embedding of `logEndDueToInactivity` (part_000 lines 376-409). -/
def logEndDueToInactivity (cfg : Config) (activityTime : Clock)
    (latestIncompleteLogEvent : Event) (s : Store) : Store :=
  patchStore s latestIncompleteLogEvent.id
    (closePatch cfg activityTime latestIncompleteLogEvent)
    activityTime.ms

/-- Patch resource of the non-lapse branch of `logActivity`: summary set
to `activityInProgress`, the activity line appended, end extended to
now, marker kept at the string false. -/
def activityPatch (cfg : Config) (activityTime : Clock)
    (activityDescription : String) (latestIncompleteLogEvent : Event) : EventPatch :=
  { summary := some (getLogName cfg cfg.activityInProgress)
    description := some (addToDescription activityTime activityDescription
      latestIncompleteLogEvent.description)
    endMs := some activityTime.ms
    completed := some "false" }

/-- Patch resource of the non-lapse branch of `logEnd`: summary set to
`activityConcluded`, the concluding line appended, end extended to now,
marker set to the string true. -/
def endPatch (cfg : Config) (endTime : Clock)
    (latestIncompleteLogEvent : Event) : EventPatch :=
  { summary := some (getLogName cfg cfg.activityConcluded)
    description := some (addToDescription endTime (getLogName cfg cfg.activityConcluded)
      latestIncompleteLogEvent.description)
    endMs := some endTime.ms
    completed := some "true" }

/-- Embedding of `logActivity` (part_000 lines 257-315).  Each
`getCurrentTime` call samples the clock stream `ts`: the call entered at
index `i` samples `ts i`; on the inactivity branch the nested `logStart`
samples `ts (i + 1)` and the recursive `logActivity` re-enters at index
`i + 2`.  `fuel` bounds the recursion depth (the source recurses
unboundedly; the claims show depth 2 suffices on the inactivity
branch). -/
def logActivityAux (cfg : Config) (ts : Nat → Clock) (activityDescription : String) :
    Nat → Nat → Store → Except LogError Store
  | 0, _, _ => .error .outOfFuel
  | fuel + 1, i, s =>
    let activityTime := ts i
    match resolveLatestIncomplete activityTime s with
    | .error e => .error e
    | .ok latestIncompleteLogEvent =>
      if hasInactivity cfg latestIncompleteLogEvent activityTime.ms then
        let s1 := logEndDueToInactivity cfg activityTime latestIncompleteLogEvent s
        let s2 := logStart cfg (ts (i + 1)) s1
        logActivityAux cfg ts activityDescription fuel (i + 2) s2
      else
        .ok (patchStore s latestIncompleteLogEvent.id
          (activityPatch cfg activityTime activityDescription latestIncompleteLogEvent)
          activityTime.ms)

/-- Embedding of `logEnd` (part_000 lines 320-374): resolve the open
event; on inactivity close it via `logEndDueToInactivity`, otherwise
patch it with the `activityConcluded` title and final line, extend its
end to now and set the marker to the string true. -/
def logEnd (cfg : Config) (endTime : Clock) (s : Store) : Except LogError Store :=
  match resolveLatestIncomplete endTime s with
  | .error e => .error e
  | .ok latestIncompleteLogEvent =>
    if hasInactivity cfg latestIncompleteLogEvent endTime.ms then
      .ok (logEndDueToInactivity cfg endTime latestIncompleteLogEvent s)
    else
      .ok (patchStore s latestIncompleteLogEvent.id
        (endPatch cfg endTime latestIncompleteLogEvent)
        endTime.ms)

/-!
Section: auxiliary lemmas about the description strings.
-/

theorem digitChar_ne_newline (n : Nat) : digitChar n ≠ '\n' := by
  unfold digitChar
  split <;> decide

theorem length_le_natReprAux (fuel n : Nat) (acc : List Char) :
    acc.length ≤ (natReprAux fuel n acc).length := by
  induction fuel generalizing n acc with
  | zero => simp [natReprAux]
  | succ fuel ih =>
    simp only [natReprAux]
    split
    · simp
    · exact le_trans (Nat.le_succ _) (ih (n / 10) (digitChar (n % 10) :: acc))

theorem natRepr_length_pos (n : Nat) : 1 ≤ (natRepr n).length := by
  unfold natRepr natReprAux
  split
  · simp
  · exact le_trans (by simp) (length_le_natReprAux _ _ _)

theorem mem_natReprAux (fuel n : Nat) (acc : List Char) (c : Char)
    (hc : c ∈ natReprAux fuel n acc) : c ∈ acc ∨ ∃ m, c = digitChar m := by
  induction fuel generalizing n acc with
  | zero => exact Or.inl hc
  | succ fuel ih =>
    simp only [natReprAux] at hc
    split at hc
    · rcases List.mem_cons.mp hc with h | h
      · exact Or.inr ⟨n % 10, h⟩
      · exact Or.inl h
    · rcases ih (n / 10) (digitChar (n % 10) :: acc) hc with h | h
      · rcases List.mem_cons.mp h with h | h
        · exact Or.inr ⟨n % 10, h⟩
        · exact Or.inl h
      · exact Or.inr h

theorem jsPad2_ne_newline (n : Nat) (c : Char) (hc : c ∈ jsPad2 n) : c ≠ '\n' := by
  unfold jsPad2 at hc
  have hmem : c ∈ '0' :: natRepr n := List.drop_subset _ _ hc
  rcases List.mem_cons.mp hmem with rfl | hmem
  · decide
  · rcases mem_natReprAux _ _ _ _ hmem with h | ⟨m, hm⟩
    · simp at h
    · exact hm ▸ digitChar_ne_newline m

theorem jsPad2_length (n : Nat) : (jsPad2 n).length = 2 := by
  unfold jsPad2
  have h := natRepr_length_pos n
  simp only [List.length_drop, List.length_cons]
  omega

/-- Characters of the fixed `HH:MM – ` line prefix. -/
def linePrefixChars (date : Clock) : List Char :=
  jsPad2 date.hours ++ (':' :: (jsPad2 date.minutes ++ [' ', '–', ' ']))

theorem timeLineChars_eq_prefix_append (t : Clock) (msg : String) :
    timeLineChars t msg = linePrefixChars t ++ msg.data := by
  unfold timeLineChars linePrefixChars
  simp

theorem linePrefixChars_length (t : Clock) : (linePrefixChars t).length = 8 := by
  unfold linePrefixChars
  simp [jsPad2_length]

theorem linePrefixChars_ne_newline (t : Clock) (c : Char)
    (hc : c ∈ linePrefixChars t) : c ≠ '\n' := by
  unfold linePrefixChars at hc
  rcases List.mem_append.mp hc with h | h
  · exact jsPad2_ne_newline _ _ h
  rcases List.mem_cons.mp h with rfl | h
  · decide
  rcases List.mem_append.mp h with h | h
  · exact jsPad2_ne_newline _ _ h
  · intro hEq
    subst hEq
    exact absurd h (by decide)

theorem timeLineChars_ne_newline (t : Clock) (msg : String)
    (hm : '\n' ∉ msg.data) (c : Char) (hc : c ∈ timeLineChars t msg) : c ≠ '\n' := by
  rw [timeLineChars_eq_prefix_append] at hc
  rcases List.mem_append.mp hc with h | h
  · exact linePrefixChars_ne_newline t c h
  · intro hEq
    subst hEq
    exact hm h

theorem takeWhile_all {p : Char → Bool} (l : List Char) (h : ∀ c ∈ l, p c = true) :
    l.takeWhile p = l := by
  induction l with
  | nil => rfl
  | cons a t ih =>
    rw [List.takeWhile_cons_of_pos (h a (by simp))]
    rw [ih (fun c hc => h c (by simp [hc]))]

theorem lastLineChars_of_no_newline (l : List Char) (h : ∀ c ∈ l, c ≠ '\n') :
    lastLineChars l = l := by
  unfold lastLineChars
  rw [takeWhile_all _ (by
    intro c hc
    simp only [ne_eq, decide_eq_true_eq]
    exact h c (List.mem_reverse.mp hc))]
  exact List.reverse_reverse l

theorem lastLineChars_append (d line : List Char) (h : ∀ c ∈ line, c ≠ '\n') :
    lastLineChars (d ++ '\n' :: line) = line := by
  unfold lastLineChars
  have hrev : (d ++ '\n' :: line).reverse = line.reverse ++ '\n' :: d.reverse := by
    simp
  rw [hrev]
  rw [List.takeWhile_append_of_pos (by
    intro c hc
    simp only [ne_eq, decide_eq_true_eq]
    exact h c (List.mem_reverse.mp hc))]
  rw [List.takeWhile_cons_of_neg (by simp)]
  simp

theorem splitLines_of_no_newline (l : List Char) (h : ∀ c ∈ l, c ≠ '\n') :
    splitLines l = [l] := by
  induction l with
  | nil => rfl
  | cons a t ih =>
    unfold splitLines
    rw [if_neg (h a (by simp))]
    rw [ih (fun c hc => h c (by simp [hc]))]

theorem splitLines_append (xs ys : List Char) (h : ∀ c ∈ xs, c ≠ '\n') :
    splitLines (xs ++ '\n' :: ys) = xs :: splitLines ys := by
  induction xs with
  | nil =>
    rw [List.nil_append]
    simp [splitLines]
  | cons a t ih =>
    have ha : a ≠ '\n' := h a (by simp)
    have iht := ih (fun c hc => h c (by simp [hc]))
    rw [List.cons_append]
    simp only [splitLines]
    rw [if_neg ha, iht]

theorem addToDescription_data_of_ne (t : Clock) (msg d : String) (hd : d ≠ "") :
    (addToDescription t msg d).data = d.data ++ '\n' :: timeLineChars t msg := by
  unfold addToDescription
  rw [if_pos hd]
  simp [String.data_append]

theorem addToDescription_data_of_empty (t : Clock) (msg : String) :
    (addToDescription t msg "").data = timeLineChars t msg := by
  unfold addToDescription
  simp

theorem drop_eight_timeLineChars (t : Clock) (msg : String) :
    (timeLineChars t msg).drop 8 = msg.data := by
  rw [timeLineChars_eq_prefix_append]
  rw [← linePrefixChars_length t]
  exact List.drop_left _ _

/-!
Section: claim C8.
-/

/-- C8: for every timestamp, every message without an embedded newline,
and every prior description `d`, `addToDescription` returns `d` unchanged
as a prefix (followed by exactly one newline when `d` is non-empty) with
exactly one appended line of the shape `HH:MM – message` (zero-padded
hour and minute rendered by `jsPad2`), and parsing the last line of the
result recovers the message byte for byte; prior lines are never
reordered or truncated (the result is literally `d` plus one appended
line). -/
theorem addToDescription_roundtrip (t : Clock) (msg d : String)
    (hm : '\n' ∉ msg.data) :
    d.data <+: (addToDescription t msg d).data ∧
    (d ≠ "" → (addToDescription t msg d).data = d.data ++ '\n' :: timeLineChars t msg) ∧
    (d = "" → (addToDescription t msg d).data = timeLineChars t msg) ∧
    lastLineChars (addToDescription t msg d).data = timeLineChars t msg ∧
    parseLastLine (addToDescription t msg d) = msg := by
  have hline : ∀ c ∈ timeLineChars t msg, c ≠ '\n' := timeLineChars_ne_newline t msg hm
  by_cases hd : d = ""
  · subst hd
    refine ⟨by simp, by simp, fun _ => addToDescription_data_of_empty t msg, ?_, ?_⟩
    · rw [addToDescription_data_of_empty]
      exact lastLineChars_of_no_newline _ hline
    · unfold parseLastLine
      rw [addToDescription_data_of_empty, lastLineChars_of_no_newline _ hline,
        drop_eight_timeLineChars]
  · have hdata := addToDescription_data_of_ne t msg d hd
    refine ⟨⟨'\n' :: timeLineChars t msg, hdata.symm⟩, fun _ => hdata, by simp [hd], ?_, ?_⟩
    · rw [hdata]
      exact lastLineChars_append _ _ hline
    · unfold parseLastLine
      rw [hdata, lastLineChars_append _ _ hline, drop_eight_timeLineChars]

/-- Witness for C8 at a concrete input: the round trip recovers the
message. -/
theorem addToDescription_roundtrip_witness :
    parseLastLine (addToDescription ⟨0, 9, 5⟩ "edit A" "prior line") = "edit A" :=
  (addToDescription_roundtrip ⟨0, 9, 5⟩ "edit A" "prior line" (by decide)).2.2.2.2

/-!
Section: claims C4 and C5 (the inactivity policy).
-/

/-- C5: for every open event with well-formed timestamps (its numeric
last-activity value, `updated` falling back to `created`, parses to
`lastActivity`) and every current time, `hasInactivity` returns true if
and only if the elapsed time strictly exceeds
`minutesUntilInactivity * 60000` milliseconds. -/
theorem hasInactivity_iff_strict (cfg : Config) (e : Event) (now lastActivity : Int)
    (h : toNum (jsOrTime e.updated e.created) = some lastActivity) :
    hasInactivity cfg e now = true ↔
      now - lastActivity > (cfg.minutesUntilInactivity : Int) * 60000 := by
  unfold hasInactivity
  rw [h]
  simp only [gt_iff_lt, decide_eq_true_eq, Config.msUntilInactivity]
  constructor <;> intro hlt <;> linarith

/-- Witness for C5: with the default 10-minute threshold, an event last
touched at epoch 0 is lapsed at 600001 ms. -/
theorem hasInactivity_iff_strict_witness :
    hasInactivity (defaultStrings "P")
      { id := 1, summary := "s", description := "", startMs := 0, endMs := 1000,
        completed := some (some "false"), created := .ms 0, updated := .ms 0 }
      600001 = true :=
  (hasInactivity_iff_strict (defaultStrings "P")
    { id := 1, summary := "s", description := "", startMs := 0, endMs := 1000,
      completed := some (some "false"), created := .ms 0, updated := .ms 0 }
    600001 0 rfl).mpr (by norm_num [defaultStrings])

/-- Counterexample for C4 as stated: at an open event whose `updated` and
`created` are both malformed, `hasInactivity` does not fail with a
malformed-timestamp error — no such error exists in the code — but
silently returns the boolean false (the NaN comparison), i.e. the
malformed input is coerced to the default answer `not lapsed`. -/
theorem hasInactivity_malformed_counterexample :
    hasInactivity (defaultStrings "P")
      { id := 1, summary := "s", description := "", startMs := 0, endMs := 1000,
        completed := some (some "false"), created := .malformed, updated := .malformed }
      999999999999 = false := rfl

/-- C4 amended: for every open event whose remote timestamps are
unparsable (their numeric coercion is NaN), `hasInactivity` silently
returns false — the malformed input is always coerced to the answer
`not lapsed`, and no error is raised. -/
theorem hasInactivity_malformed_returns_false (cfg : Config) (e : Event) (now : Int)
    (h : toNum (jsOrTime e.updated e.created) = none) :
    hasInactivity cfg e now = false := by
  unfold hasInactivity
  rw [h]

/-- Witness for the amended C4 at a concrete malformed event. -/
theorem hasInactivity_malformed_returns_false_witness :
    hasInactivity (defaultStrings "Q")
      { id := 2, summary := "s", description := "", startMs := 0, endMs := 1000,
        completed := some (some "false"), created := .missing, updated := .malformed }
      12345 = false :=
  hasInactivity_malformed_returns_false (defaultStrings "Q")
    { id := 2, summary := "s", description := "", startMs := 0, endMs := 1000,
      completed := some (some "false"), created := .missing, updated := .malformed }
    12345 rfl

/-!
Section: lemmas about the open-marker scan.
-/

theorem eventIsOpen_iff (e : Event) :
    eventIsOpen e = true ↔ e.completed = some (some "false") := by
  unfold eventIsOpen
  rcases e.completed with _ | oc
  · simp
  rcases oc with _ | s
  · simp
  · simp

theorem getLatest_ok (l : List Event) (e : Event)
    (h : getLatestIncompleteLogEvent (.ok l) = .ok e) :
    e ∈ l ∧ eventIsOpen e = true := by
  simp only [getLatestIncompleteLogEvent] at h
  by_cases hemp : l.isEmpty
  · rw [if_pos hemp] at h
    exact absurd h (by simp)
  · rw [if_neg hemp] at h
    cases hfind : l.reverse.find? eventIsOpen with
    | none =>
      rw [hfind] at h
      exact absurd h (by simp)
    | some x =>
      rw [hfind] at h
      injection h with hx
      subst hx
      exact ⟨List.mem_reverse.mp (List.mem_of_find?_eq_some hfind), List.find?_some hfind⟩

theorem find?_desc_max (l : List Event) (e : Event)
    (hs : l.Pairwise (fun a b => b.startMs ≤ a.startMs))
    (hf : l.find? eventIsOpen = some e) :
    ∀ x ∈ l, eventIsOpen x = true → x.startMs ≤ e.startMs := by
  induction l with
  | nil => simp at hf
  | cons a t ih =>
    rcases List.pairwise_cons.mp hs with ⟨ha, ht⟩
    by_cases hpa : eventIsOpen a = true
    · rw [List.find?_cons_of_pos _ hpa] at hf
      injection hf with hae
      subst hae
      intro x hx _
      rcases List.mem_cons.mp hx with rfl | hx
      · exact le_refl _
      · exact ha x hx
    · rw [List.find?_cons_of_neg _ (by simpa using hpa)] at hf
      intro x hx hopen
      rcases List.mem_cons.mp hx with rfl | hx
      · exact absurd hopen hpa
      · exact ih ht hf x hx hopen

/-!
Section: claims C3, C7, C9.
-/

/-- C3: over any event list that is sorted ascending by start time (as
the list call returns it) and contains at least two open-marked events,
the scan returns (never throws) one open-marked member of the list whose
start time is maximal among the open-marked events; being a pure
function of its input, repeated calls agree. -/
theorem getLatest_multiOpen_deterministic (events : List Event)
    (hsorted : events.Pairwise (fun a b => a.startMs ≤ b.startMs))
    (htwo : 2 ≤ (events.filter eventIsOpen).length) :
    ∃ e, getLatestIncompleteLogEvent (.ok events) = .ok e ∧ e ∈ events ∧
      eventIsOpen e = true ∧
      ∀ x ∈ events, eventIsOpen x = true → x.startMs ≤ e.startMs := by
  have hopen : ∃ x ∈ events, eventIsOpen x = true := by
    rcases hfilter : events.filter eventIsOpen with _ | ⟨y, ys⟩
    · rw [hfilter] at htwo
      simp at htwo
    · have hy : y ∈ events.filter eventIsOpen := by
        rw [hfilter]
        simp
      exact ⟨y, (List.mem_filter.mp hy).1, (List.mem_filter.mp hy).2⟩
  rcases hopen with ⟨y, hy, hyopen⟩
  have hne : ¬ events.isEmpty = true := by
    cases events
    · simp at hy
    · simp
  have hfind : ∃ e, events.reverse.find? eventIsOpen = some e := by
    rcases hf : events.reverse.find? eventIsOpen with _ | e
    · rw [List.find?_eq_none] at hf
      exact absurd hyopen (by simpa using hf y (List.mem_reverse.mpr hy))
    · exact ⟨e, rfl⟩
  rcases hfind with ⟨e, hfind⟩
  refine ⟨e, ?_, List.mem_reverse.mp (List.mem_of_find?_eq_some hfind),
    List.find?_some hfind, ?_⟩
  · simp only [getLatestIncompleteLogEvent]
    rw [if_neg hne, hfind]
  · have hdesc : events.reverse.Pairwise (fun a b => b.startMs ≤ a.startMs) :=
      List.pairwise_reverse.mpr hsorted
    intro x hx hxopen
    exact find?_desc_max _ _ hdesc hfind x (List.mem_reverse.mpr hx) hxopen

/-- Witness for C3 on a two-open-event window. -/
theorem getLatest_multiOpen_deterministic_witness :
    ∃ e, getLatestIncompleteLogEvent (.ok
        [{ id := 1, summary := "a", description := "", startMs := 0, endMs := 1,
           completed := some (some "false"), created := .ms 0, updated := .ms 0 },
         { id := 2, summary := "b", description := "", startMs := 100, endMs := 101,
           completed := some (some "false"), created := .ms 100, updated := .ms 100 }]) = .ok e ∧
      e ∈ [{ id := 1, summary := "a", description := "", startMs := 0, endMs := 1,
             completed := some (some "false"), created := .ms 0, updated := .ms 0 },
           { id := 2, summary := "b", description := "", startMs := 100, endMs := 101,
             completed := some (some "false"), created := .ms 100, updated := .ms 100 }] ∧
      eventIsOpen e = true ∧
      ∀ x ∈ [{ id := 1, summary := "a", description := "", startMs := 0, endMs := 1,
               completed := some (some "false"), created := .ms 0, updated := .ms 0 },
             { id := 2, summary := "b", description := "", startMs := 100, endMs := 101,
               completed := some (some "false"), created := .ms 100, updated := .ms 100 }],
        eventIsOpen x = true → x.startMs ≤ e.startMs :=
  getLatest_multiOpen_deterministic _ (by decide) (by decide)

/-- C7: when the listed window holds zero open-marked events (including
the empty window), the resolver yields one of the two not-found resolver
errors — never a transport error and never a default event — and both
`logActivity` and `logEnd` surface exactly that error to their caller. -/
theorem resolver_noOpen_notFound (cfg : Config) (ts : Nat → Clock) (msg : String)
    (fuel i : Nat) (s : Store)
    (h : ∀ e ∈ listEvents (ts i) s, eventIsOpen e = false) :
    ∃ re : ResolverError,
      resolveLatestIncomplete (ts i) s = .error (.resolver re) ∧
      logActivityAux cfg ts msg (fuel + 1) i s = .error (.resolver re) ∧
      logEnd cfg (ts i) s = .error (.resolver re) := by
  have hres : ∃ re, resolveLatestIncomplete (ts i) s = .error (.resolver re) := by
    simp only [resolveLatestIncomplete, getLatestIncompleteLogEvent]
    by_cases hemp : (listEvents (ts i) s).isEmpty
    · exact ⟨.foundNoEvents, by rw [if_pos hemp]⟩
    · refine ⟨.noIncompleteEvent, ?_⟩
      rw [if_neg hemp]
      have hnone : (listEvents (ts i) s).reverse.find? eventIsOpen = none := by
        rw [List.find?_eq_none]
        intro x hx
        simp [h x (List.mem_reverse.mp hx)]
      rw [hnone]
  rcases hres with ⟨re, hres⟩
  refine ⟨re, hres, ?_, ?_⟩
  · simp only [logActivityAux]
    rw [hres]
  · unfold logEnd
    rw [hres]

/-- Witness for C7 on the empty store. -/
theorem resolver_noOpen_notFound_witness :
    ∃ re : ResolverError,
      resolveLatestIncomplete ((fun _ => (⟨0, 0, 0⟩ : Clock)) 0) ⟨[], 5⟩ = .error (.resolver re) ∧
      logActivityAux (defaultStrings "P") (fun _ => (⟨0, 0, 0⟩ : Clock)) "m" (0 + 1) 0 ⟨[], 5⟩ =
        .error (.resolver re) ∧
      logEnd (defaultStrings "P") ((fun _ => (⟨0, 0, 0⟩ : Clock)) 0) ⟨[], 5⟩ =
        .error (.resolver re) :=
  resolver_noOpen_notFound (defaultStrings "P") (fun _ => ⟨0, 0, 0⟩) "m" 0 0 ⟨[], 5⟩
    (by intro e he; simp [listEvents] at he)

/-- C9: the scan is total over arbitrarily shaped events — it either
returns an event that does carry the open marker (the attribute present
with string value false) or one of the resolver errors; an event whose
marker attribute is missing, inaccessible, or differently valued is
never the one selected, and never makes the scan fail. -/
theorem scan_total_skips_unmarked (events : List Event) :
    (∃ e, getLatestIncompleteLogEvent (.ok events) = .ok e ∧ e ∈ events ∧
      e.completed = some (some "false")) ∨
    (∃ re, getLatestIncompleteLogEvent (.ok events) = .error (.resolver re)) := by
  by_cases hemp : events.isEmpty
  · right
    exact ⟨.foundNoEvents, by simp only [getLatestIncompleteLogEvent]; rw [if_pos hemp]⟩
  rcases hf : events.reverse.find? eventIsOpen with _ | e
  · right
    exact ⟨.noIncompleteEvent, by simp only [getLatestIncompleteLogEvent]; rw [if_neg hemp, hf]⟩
  · left
    exact ⟨e, by simp only [getLatestIncompleteLogEvent]; rw [if_neg hemp, hf],
      List.mem_reverse.mp (List.mem_of_find?_eq_some hf),
      (eventIsOpen_iff e).mp (List.find?_some hf)⟩

/-!
Section: lemmas about patches and the store.
-/

theorem applyPatch_id (p : EventPatch) (now : Int) (e : Event) :
    (applyPatch p now e).id = e.id := rfl

theorem patchStore_nextId (s : Store) (eventId : Nat) (p : EventPatch) (now : Int) :
    (patchStore s eventId p now).nextId = s.nextId := rfl

/-!
Section: claim C10.
-/

/-- C10: the close-due-to-inactivity mutation patches only summary,
description and the completed marker — at every position of the store,
the start time, the end time and the id of the event are exactly what
they were before the patch (and no event is added or removed), so a
lapsed event is not extended to the time at which the lapse was
detected. -/
theorem logEndDueToInactivity_frame (cfg : Config) (t : Clock) (ev : Event) (s : Store) :
    (logEndDueToInactivity cfg t ev s).events.length = s.events.length ∧
    ∀ i : Nat,
      ((logEndDueToInactivity cfg t ev s).events[i]?.map Event.startMs =
        s.events[i]?.map Event.startMs) ∧
      ((logEndDueToInactivity cfg t ev s).events[i]?.map Event.endMs =
        s.events[i]?.map Event.endMs) ∧
      ((logEndDueToInactivity cfg t ev s).events[i]?.map Event.id =
        s.events[i]?.map Event.id) := by
  unfold logEndDueToInactivity patchStore
  refine ⟨by simp, ?_⟩
  intro i
  simp only [List.getElem?_map]
  cases s.events[i]? with
  | none => simp
  | some e =>
    by_cases he : e.id = ev.id
    · simp [he, applyPatch, closePatch]
    · simp [he]

/-!
Section: resolving the open event of strictly latest start.  The window
is sorted ascending by start time and scanned in reverse, so an open
event whose start time strictly exceeds every other start in the store
is the one resolved.
-/

theorem find?_reverse_of_strictmax (l : List Event) (x : Event)
    (hmem : x ∈ l)
    (hsort : l.Pairwise (fun a b => a.startMs ≤ b.startMs))
    (hmax : ∀ y ∈ l, y ≠ x → y.startMs < x.startMs)
    (hx : eventIsOpen x = true) :
    l.reverse.find? eventIsOpen = some x := by
  cases hrev : l.reverse with
  | nil =>
    rw [List.reverse_eq_nil_iff] at hrev
    subst hrev
    simp at hmem
  | cons a t =>
    have hax : a = x := by
      by_contra hne
      have hal : a ∈ l := List.mem_reverse.mp (hrev ▸ List.mem_cons_self a t)
      have hlt : a.startMs < x.startMs := hmax a hal hne
      have hxr : x ∈ a :: t := hrev ▸ List.mem_reverse.mpr hmem
      have hxt : x ∈ t := by
        rcases List.mem_cons.mp hxr with h | h
        · exact absurd h.symm hne
        · exact h
      have hdesc : (l.reverse).Pairwise (fun a b => b.startMs ≤ a.startMs) :=
        List.pairwise_reverse.mpr hsort
      rw [hrev] at hdesc
      have hle : x.startMs ≤ a.startMs := (List.pairwise_cons.mp hdesc).1 x hxt
      exact absurd hle (not_le.mpr hlt)
    subst hax
    exact List.find?_cons_of_pos _ hx

theorem startLeBool_trans (a b c : Event) (hab : decide (a.startMs ≤ b.startMs) = true)
    (hbc : decide (b.startMs ≤ c.startMs) = true) :
    decide (a.startMs ≤ c.startMs) = true := by
  rw [decide_eq_true_eq] at *
  exact le_trans hab hbc

theorem startLeBool_total (a b : Event) :
    (decide (a.startMs ≤ b.startMs) || decide (b.startMs ≤ a.startMs)) = true := by
  simp only [Bool.or_eq_true, decide_eq_true_eq]
  exact le_total _ _

theorem resolve_strictmax_open (t : Clock) (s : Store) (x : Event)
    (hx : eventIsOpen x = true)
    (hmem : x ∈ s.events)
    (hmax : ∀ y ∈ s.events, y ≠ x → y.startMs < x.startMs)
    (hw1 : t.ms - msLookbackWindow ≤ x.startMs) (hw2 : x.startMs ≤ t.ms) :
    resolveLatestIncomplete t s = .ok x := by
  unfold resolveLatestIncomplete listEvents
  have hxf : x ∈ s.events.filter (fun e =>
      decide (t.ms - msLookbackWindow ≤ e.startMs ∧ e.startMs ≤ t.ms)) :=
    List.mem_filter.mpr ⟨hmem, by rw [decide_eq_true_eq]; exact ⟨hw1, hw2⟩⟩
  have hxs : x ∈ (s.events.filter (fun e =>
      decide (t.ms - msLookbackWindow ≤ e.startMs ∧ e.startMs ≤ t.ms))).mergeSort
      (fun a b => decide (a.startMs ≤ b.startMs)) :=
    List.mem_mergeSort.mpr hxf
  have hsort : ((s.events.filter (fun e =>
      decide (t.ms - msLookbackWindow ≤ e.startMs ∧ e.startMs ≤ t.ms))).mergeSort
      (fun a b => decide (a.startMs ≤ b.startMs))).Pairwise
      (fun a b => a.startMs ≤ b.startMs) := by
    have hs := List.sorted_mergeSort startLeBool_trans startLeBool_total
      (s.events.filter (fun e =>
        decide (t.ms - msLookbackWindow ≤ e.startMs ∧ e.startMs ≤ t.ms)))
    exact hs.imp (fun h => by simpa using h)
  have hmaxs : ∀ y ∈ (s.events.filter (fun e =>
      decide (t.ms - msLookbackWindow ≤ e.startMs ∧ e.startMs ≤ t.ms))).mergeSort
      (fun a b => decide (a.startMs ≤ b.startMs)), y ≠ x → y.startMs < x.startMs :=
    fun y hy hne =>
      hmax y (List.mem_of_mem_filter (List.mem_mergeSort.mp hy)) hne
  have hfind := find?_reverse_of_strictmax _ x hxs hsort hmaxs hx
  simp only [getLatestIncompleteLogEvent]
  rw [if_neg (by
    intro hemp
    rw [List.isEmpty_iff] at hemp
    rw [hemp] at hxs
    simp at hxs)]
  rw [hfind]

theorem startEvent_open (cfg : Config) (t : Clock) (nid : Nat) :
    eventIsOpen (startEvent cfg t nid) = true := rfl

theorem hasInactivity_startEvent (cfg : Config) (t : Clock) (nid : Nat) (now : Int)
    (h : now - t.ms ≤ cfg.msUntilInactivity) :
    hasInactivity cfg (startEvent cfg t nid) now = false := by
  unfold hasInactivity startEvent jsOrTime toNum
  simp only [decide_eq_false_iff_not, not_lt, gt_iff_lt]
  exact h

theorem applyPatch_startMs_of_none (p : EventPatch) (now : Int) (e : Event)
    (hp : p.startMs = none) : (applyPatch p now e).startMs = e.startMs := by
  simp [applyPatch, hp]

theorem patchFun_startMs (eventId : Nat) (p : EventPatch) (now : Int) (e : Event)
    (hp : p.startMs = none) :
    ((fun e => if e.id = eventId then applyPatch p now e else e) e).startMs = e.startMs := by
  by_cases h : e.id = eventId
  · simp only [h, if_pos rfl]
    exact applyPatch_startMs_of_none p now e hp
  · simp [h]

/-!
Section: the lapse branch of `logActivity` runs in exactly two steps,
provided every event in the store started strictly before the fresh
`logStart` (so that the start-sorted reversed scan resolves the fresh
event and nothing else on the retry).
-/

theorem logActivityAux_lapse_run (cfg : Config) (ts : Nat → Clock) (msg : String)
    (fuel i : Nat) (s : Store) (ev : Event)
    (hres : resolveLatestIncomplete (ts i) s = .ok ev)
    (hlapse : hasInactivity cfg ev (ts i).ms = true)
    (hstart : ∀ e ∈ s.events, e.startMs < (ts (i + 1)).ms)
    (hmono : (ts (i + 1)).ms ≤ (ts (i + 2)).ms)
    (hwin : (ts (i + 2)).ms - msLookbackWindow ≤ (ts (i + 1)).ms)
    (hfresh : (ts (i + 2)).ms - (ts (i + 1)).ms ≤ cfg.msUntilInactivity) :
    logActivityAux cfg ts msg (fuel + 2) i s =
      .ok (patchStore (logStart cfg (ts (i + 1)) (logEndDueToInactivity cfg (ts i) ev s))
        s.nextId
        (activityPatch cfg (ts (i + 2)) msg (startEvent cfg (ts (i + 1)) s.nextId))
        (ts (i + 2)).ms) := by
  have hres2 : resolveLatestIncomplete (ts (i + 2))
      (logStart cfg (ts (i + 1)) (logEndDueToInactivity cfg (ts i) ev s)) =
      .ok (startEvent cfg (ts (i + 1)) s.nextId) := by
    apply resolve_strictmax_open (ts (i + 2))
      (logStart cfg (ts (i + 1)) (logEndDueToInactivity cfg (ts i) ev s))
      (startEvent cfg (ts (i + 1)) s.nextId)
      (startEvent_open cfg (ts (i + 1)) s.nextId)
    · exact List.mem_append_right _ (List.mem_singleton.mpr rfl)
    · intro y hy hne
      rcases List.mem_append.mp hy with h | h
      · rcases List.mem_map.mp h with ⟨e, he, rfl⟩
        rw [patchFun_startMs ev.id (closePatch cfg (ts i) ev) (ts i).ms e rfl]
        exact hstart e he
      · exact absurd (List.mem_singleton.mp h) hne
    · exact hwin
    · exact hmono
  have hnolapse : hasInactivity cfg (startEvent cfg (ts (i + 1)) s.nextId) (ts (i + 2)).ms
      = false :=
    hasInactivity_startEvent cfg (ts (i + 1)) s.nextId (ts (i + 2)).ms hfresh
  show logActivityAux cfg ts msg (fuel + 1 + 1) i s = _
  rw [logActivityAux]
  simp only [hres]
  rw [if_pos hlapse]
  rw [logActivityAux]
  simp only [hres2]
  rw [if_neg (by simp [hnolapse])]
  rfl

/-!
Section: claim C6.
-/

/-- C6: a `logActivity` call that takes the inactivity branch terminates
after exactly one retry: provided every stored event started strictly
before the fresh `logStart` and the retried report happens no later than
the inactivity threshold after it (and within the lookback window), the
freshly started session is the one the start-sorted reversed scan
resolves, it is not itself lapsed, and the retry takes the non-lapse
branch — the recursion depth is bounded by two, independently of any
extra fuel. -/
theorem logActivity_lapse_depth_two (cfg : Config) (ts : Nat → Clock) (msg : String)
    (i : Nat) (s : Store) (ev : Event)
    (hres : resolveLatestIncomplete (ts i) s = .ok ev)
    (hlapse : hasInactivity cfg ev (ts i).ms = true)
    (hstart : ∀ e ∈ s.events, e.startMs < (ts (i + 1)).ms)
    (hmono : (ts (i + 1)).ms ≤ (ts (i + 2)).ms)
    (hwin : (ts (i + 2)).ms - msLookbackWindow ≤ (ts (i + 1)).ms)
    (hfresh : (ts (i + 2)).ms - (ts (i + 1)).ms ≤ cfg.msUntilInactivity) :
    ∃ s', ∀ fuel : Nat, logActivityAux cfg ts msg (fuel + 2) i s = .ok s' :=
  ⟨_, fun fuel =>
    logActivityAux_lapse_run cfg ts msg fuel i s ev hres hlapse hstart hmono hwin hfresh⟩

/-- Witness for C6: a store holding one open event last touched at epoch
0, reported against at 700000 ms with the default 10-minute threshold. -/
theorem logActivity_lapse_depth_two_witness :
    ∃ s', ∀ fuel : Nat,
      logActivityAux (defaultStrings "P") (fun n => ⟨700000 + (n : Int), 0, 11⟩) "m"
        (fuel + 2) 0
        ⟨[{ id := 0, summary := "s", description := "d0", startMs := 0, endMs := 1000,
            completed := some (some "false"), created := .ms 0, updated := .ms 0 }], 1⟩ =
        .ok s' :=
  logActivity_lapse_depth_two (defaultStrings "P") (fun n => ⟨700000 + (n : Int), 0, 11⟩) "m" 0
    ⟨[{ id := 0, summary := "s", description := "d0", startMs := 0, endMs := 1000,
        completed := some (some "false"), created := .ms 0, updated := .ms 0 }], 1⟩
    { id := 0, summary := "s", description := "d0", startMs := 0, endMs := 1000,
      completed := some (some "false"), created := .ms 0, updated := .ms 0 }
    (resolve_strictmax_open ⟨700000 + ((0 : Nat) : Int), 0, 11⟩
      ⟨[{ id := 0, summary := "s", description := "d0", startMs := 0, endMs := 1000,
          completed := some (some "false"), created := .ms 0, updated := .ms 0 }], 1⟩
      { id := 0, summary := "s", description := "d0", startMs := 0, endMs := 1000,
        completed := some (some "false"), created := .ms 0, updated := .ms 0 }
      rfl (List.mem_singleton.mpr rfl)
      (fun y hy hne => absurd (List.mem_singleton.mp hy) hne)
      (by decide) (by decide))
    rfl (by decide) (by decide) (by decide) (by decide)

/-!
Section: find-by-id lemmas for the two-event conclusion of C1.
-/

theorem find?_by_id_map (l : List Event) (f : Event → Event)
    (hf : ∀ e ∈ l, (f e).id = e.id) (hn : (l.map Event.id).Nodup)
    (ev : Event) (hev : ev ∈ l) :
    (l.map f).find? (fun e => e.id = ev.id) = some (f ev) := by
  induction l with
  | nil => simp at hev
  | cons a t ih =>
    rw [List.map_cons, List.nodup_cons] at hn
    rcases List.mem_cons.mp hev with rfl | hev
    · rw [List.map_cons, List.find?_cons_of_pos _ (by simp [hf ev (by simp)])]
    · have hne : a.id ≠ ev.id := by
        intro hEq
        exact hn.1 (hEq ▸ List.mem_map_of_mem Event.id hev)
      rw [List.map_cons, List.find?_cons_of_neg _ (by simp [hf a (by simp), hne])]
      exact ih (fun e he => hf e (by simp [he])) hn.2 hev

theorem find?_by_id_map_none (l : List Event) (f : Event → Event)
    (hf : ∀ e ∈ l, (f e).id = e.id) (n : Nat) (hne : ∀ e ∈ l, e.id ≠ n) :
    (l.map f).find? (fun e => e.id = n) = none := by
  rw [List.find?_eq_none]
  intro x hx
  rcases List.mem_map.mp hx with ⟨e, he, rfl⟩
  simp [hf e he, hne e he]

theorem patchFun_id (eventId : Nat) (p : EventPatch) (now : Int) (e : Event) :
    ((fun e => if e.id = eventId then applyPatch p now e else e) e).id = e.id := by
  by_cases h : e.id = eventId
  · simp [h, applyPatch_id]
  · simp [h]

/-!
Section: claim C1.
-/

/-- C1: a `logActivity` call that takes the inactivity branch — with
every stored event started strictly before the fresh `logStart` and the
retry inside the window and threshold, so the start-sorted reversed scan
resolves the fresh event on the retry — produces exactly two affected
events, never one: the store grows by exactly one event; the previously
open event is patched closed (marker string true) with the
inactivity-reason line appended to its description; a distinct newly
created event (a different id) carries the open marker and a description
holding the new activity line; and every other event is untouched. -/
theorem logActivity_lapse_two_events (cfg : Config) (ts : Nat → Clock) (msg : String)
    (i : Nat) (s : Store) (ev : Event)
    (hwf : s.wf)
    (hres : resolveLatestIncomplete (ts i) s = .ok ev)
    (hlapse : hasInactivity cfg ev (ts i).ms = true)
    (hstart : ∀ e ∈ s.events, e.startMs < (ts (i + 1)).ms)
    (hmono : (ts (i + 1)).ms ≤ (ts (i + 2)).ms)
    (hwin : (ts (i + 2)).ms - msLookbackWindow ≤ (ts (i + 1)).ms)
    (hfresh : (ts (i + 2)).ms - (ts (i + 1)).ms ≤ cfg.msUntilInactivity) :
    ∃ s',
      (∀ fuel : Nat, logActivityAux cfg ts msg (fuel + 2) i s = .ok s') ∧
      s'.events.length = s.events.length + 1 ∧
      ev.id ≠ s.nextId ∧
      (∃ evClosed, s'.findById ev.id = some evClosed ∧
        evClosed.completed = some (some "true") ∧
        evClosed.description = addToDescription (ts i)
          (getLogName cfg cfg.activityConcluded ++ " " ++
            getLogName cfg cfg.closedDueToInactivity) ev.description) ∧
      (∃ evNew, s'.findById s.nextId = some evNew ∧
        evNew.completed = some (some "false") ∧
        evNew.description = addToDescription (ts (i + 2)) msg
          (addToDescription (ts (i + 1)) (getLogName cfg cfg.activityStarted) "")) ∧
      (∀ e ∈ s.events, e.id ≠ ev.id → e ∈ s'.events) := by
  have hevmem : ev ∈ s.events := by
    have h1 := getLatest_ok (listEvents (ts i) s) ev hres
    have h2 : ev ∈ listEvents (ts i) s := h1.1
    unfold listEvents at h2
    exact List.mem_of_mem_filter (List.mem_mergeSort.mp h2)
  have hid : ev.id < s.nextId := hwf.1 ev hevmem
  refine ⟨patchStore (logStart cfg (ts (i + 1)) (logEndDueToInactivity cfg (ts i) ev s))
      s.nextId (activityPatch cfg (ts (i + 2)) msg (startEvent cfg (ts (i + 1)) s.nextId))
      (ts (i + 2)).ms,
    fun fuel =>
      logActivityAux_lapse_run cfg ts msg fuel i s ev hres hlapse hstart hmono hwin hfresh,
    ?_, ?_, ?_, ?_, ?_⟩
  · simp [patchStore, logStart, logEndDueToInactivity]
  · exact Nat.ne_of_lt hid
  · refine ⟨applyPatch (closePatch cfg (ts i) ev) (ts i).ms ev, ?_, ?_, ?_⟩
    · unfold Store.findById patchStore logStart logEndDueToInactivity patchStore
      simp only [List.map_append, List.map_map, List.map_cons, List.map_nil]
      rw [List.find?_append]
      rw [find?_by_id_map s.events _ (fun e _ => by
          rw [Function.comp_apply, patchFun_id, patchFun_id]) hwf.2 ev hevmem]
      rw [Option.or_some]
      rw [Function.comp_apply, if_pos rfl, if_neg (by
        rw [applyPatch_id]
        exact Nat.ne_of_lt hid)]
    · simp [applyPatch, closePatch]
    · simp [applyPatch, closePatch]
  · refine ⟨applyPatch (activityPatch cfg (ts (i + 2)) msg (startEvent cfg (ts (i + 1)) s.nextId))
        (ts (i + 2)).ms (startEvent cfg (ts (i + 1)) s.nextId), ?_, ?_, ?_⟩
    · unfold Store.findById patchStore logStart logEndDueToInactivity patchStore
      simp only [List.map_append, List.map_map, List.map_cons, List.map_nil]
      rw [List.find?_append]
      rw [find?_by_id_map_none s.events _ (fun e _ => by
          rw [Function.comp_apply, patchFun_id, patchFun_id]) s.nextId
          (fun e he => Nat.ne_of_lt (hwf.1 e he))]
      rw [Option.none_or]
      rw [List.find?_cons_of_pos _ (by simp [startEvent, applyPatch_id])]
      rw [if_pos (show (startEvent cfg (ts (i + 1)) s.nextId).id = s.nextId from rfl)]
    · simp [applyPatch, activityPatch]
    · simp [applyPatch, activityPatch, startEvent]
  · intro e he hene
    show e ∈ (_ : Store).events
    unfold patchStore logStart logEndDueToInactivity patchStore
    simp only [List.map_append, List.map_map]
    apply List.mem_append_left
    have heq : ((fun x => if x.id = s.nextId
          then applyPatch (activityPatch cfg (ts (i + 2)) msg
            (startEvent cfg (ts (i + 1)) s.nextId)) (ts (i + 2)).ms x else x) ∘
        (fun x => if x.id = ev.id
          then applyPatch (closePatch cfg (ts i) ev) (ts i).ms x else x)) e = e := by
      rw [Function.comp_apply, if_neg hene, if_neg (Nat.ne_of_lt (hwf.1 e he))]
    exact heq ▸ List.mem_map_of_mem _ he

/-- Witness for C1: one open event last touched at epoch 0, reported
against at 700000 ms with the default 10-minute threshold; the run
closes event 0 and creates open event 1 carrying the new message. -/
theorem logActivity_lapse_two_events_witness :
    ∃ s',
      (∀ fuel : Nat,
        logActivityAux (defaultStrings "P") (fun n => ⟨700000 + (n : Int), 0, 11⟩) "m"
          (fuel + 2) 0
          ⟨[{ id := 0, summary := "s", description := "d0", startMs := 0, endMs := 1000,
              completed := some (some "false"), created := .ms 0, updated := .ms 0 }], 1⟩ =
          .ok s') ∧
      s'.events.length = 2 ∧
      (0 : Nat) ≠ 1 ∧
      (∃ evClosed, s'.findById 0 = some evClosed ∧
        evClosed.completed = some (some "true") ∧
        evClosed.description = addToDescription ⟨700000, 0, 11⟩
          (getLogName (defaultStrings "P") (defaultStrings "P").activityConcluded ++ " " ++
            getLogName (defaultStrings "P") (defaultStrings "P").closedDueToInactivity)
          "d0") ∧
      (∃ evNew, s'.findById 1 = some evNew ∧
        evNew.completed = some (some "false") ∧
        evNew.description = addToDescription ⟨700002, 0, 11⟩ "m"
          (addToDescription ⟨700001, 0, 11⟩
            (getLogName (defaultStrings "P") (defaultStrings "P").activityStarted) "")) ∧
      (∀ e ∈ [{ id := 0, summary := "s", description := "d0", startMs := 0, endMs := 1000,
                completed := some (some "false"), created := .ms 0,
                updated := .ms 0 }], Event.id e ≠ 0 → e ∈ s'.events) :=
  logActivity_lapse_two_events (defaultStrings "P") (fun n => ⟨700000 + (n : Int), 0, 11⟩) "m" 0
    ⟨[{ id := 0, summary := "s", description := "d0", startMs := 0, endMs := 1000,
        completed := some (some "false"), created := .ms 0, updated := .ms 0 }], 1⟩
    { id := 0, summary := "s", description := "d0", startMs := 0, endMs := 1000,
      completed := some (some "false"), created := .ms 0, updated := .ms 0 }
    ⟨by decide, by decide⟩
    (resolve_strictmax_open ⟨700000 + ((0 : Nat) : Int), 0, 11⟩
      ⟨[{ id := 0, summary := "s", description := "d0", startMs := 0, endMs := 1000,
          completed := some (some "false"), created := .ms 0, updated := .ms 0 }], 1⟩
      { id := 0, summary := "s", description := "d0", startMs := 0, endMs := 1000,
        completed := some (some "false"), created := .ms 0, updated := .ms 0 }
      rfl (List.mem_singleton.mpr rfl)
      (fun y hy hne => absurd (List.mem_singleton.mp hy) hne)
      (by decide) (by decide))
    rfl (by decide) (by decide) (by decide) (by decide)

/-!
Section: non-lapse runs and the patch of the last (session) event.
-/

theorem logActivityAux_noLapse_run (cfg : Config) (ts : Nat → Clock) (msg : String)
    (fuel i : Nat) (s : Store) (ev : Event)
    (hres : resolveLatestIncomplete (ts i) s = .ok ev)
    (hnolapse : hasInactivity cfg ev (ts i).ms = false) :
    logActivityAux cfg ts msg (fuel + 1) i s =
      .ok (patchStore s ev.id (activityPatch cfg (ts i) msg ev) (ts i).ms) := by
  rw [logActivityAux]
  simp only [hres]
  rw [if_neg (by simp [hnolapse])]

theorem logEnd_noLapse_run (cfg : Config) (t : Clock) (s : Store) (ev : Event)
    (hres : resolveLatestIncomplete t s = .ok ev)
    (hnolapse : hasInactivity cfg ev t.ms = false) :
    logEnd cfg t s = .ok (patchStore s ev.id (endPatch cfg t ev) t.ms) := by
  unfold logEnd
  simp only [hres]
  rw [if_neg (by simp [hnolapse])]

theorem patchStore_append_last (base : List Event) (n : Nat) (e : Event)
    (p : EventPatch) (now : Int) (hbase : ∀ b ∈ base, b.id ≠ e.id) :
    patchStore ⟨base ++ [e], n⟩ e.id p now = ⟨base ++ [applyPatch p now e], n⟩ := by
  unfold patchStore
  simp only [List.map_append, List.map_cons, List.map_nil, if_pos rfl]
  congr 2
  calc base.map (fun b => if b.id = e.id then applyPatch p now b else b)
      = base.map id := List.map_congr_left (fun b hb => by rw [if_neg (hbase b hb)]; rfl)
    _ = base := List.map_id base

theorem hasInactivity_of_updated (cfg : Config) (e : Event) (u now : Int)
    (hu : e.updated = .ms u) (h : now - u ≤ cfg.msUntilInactivity) :
    hasInactivity cfg e now = false := by
  unfold hasInactivity
  rw [hu]
  show decide (now - u > cfg.msUntilInactivity) = false
  rw [decide_eq_false_iff_not]
  exact not_lt.mpr h

theorem addToDescription_ne_empty (t : Clock) (a d : String) :
    addToDescription t a d ≠ "" := by
  intro h
  have hd := congrArg String.data h
  by_cases hdd : d = ""
  · rw [hdd, addToDescription_data_of_empty] at hd
    have hlen := congrArg List.length hd
    rw [timeLineChars_eq_prefix_append] at hlen
    simp [linePrefixChars_length] at hlen
  · rw [addToDescription_data_of_ne t a d hdd] at hd
    have hlen := congrArg List.length hd
    simp at hlen

/-!
Section: claim C2.
-/

/-- Conclusion of C2 for one start-activity-activity-end session: the
store holds exactly one added event throughout; its marker is open after
each of the first three steps and closed after `logEnd`; and its final
description splits into exactly the four expected lines — started, first
message, second message, concluded — in that order. -/
def SingleSessionRun (cfg : Config) (t0 t1 t2 t3 : Clock) (m1 m2 : String) (s0 : Store) : Prop :=
  ∃ e1 e2 e3 e4 s2 s3 s4,
    (logStart cfg t0 s0).events = s0.events ++ [e1] ∧
    e1.completed = some (some "false") ∧
    logActivityAux cfg (fun _ => t1) m1 1 0 (logStart cfg t0 s0) = .ok s2 ∧
    s2.events = s0.events ++ [e2] ∧
    e2.completed = some (some "false") ∧
    logActivityAux cfg (fun _ => t2) m2 1 0 s2 = .ok s3 ∧
    s3.events = s0.events ++ [e3] ∧
    e3.completed = some (some "false") ∧
    logEnd cfg t3 s3 = .ok s4 ∧
    s4.events = s0.events ++ [e4] ∧
    e4.completed = some (some "true") ∧
    splitLines e4.description.data =
      [timeLineChars t0 (getLogName cfg cfg.activityStarted),
       timeLineChars t1 m1,
       timeLineChars t2 m2,
       timeLineChars t3 (getLogName cfg cfg.activityConcluded)]

/-- C2: every session of the shape start, activity `m1`, activity `m2`,
end — started after every pre-existing event of the store (strictly
later start time), taken at non-decreasing times within the lookback
window, with each gap below the inactivity threshold, and with
newline-free messages and templates — touches exactly one (newly
created) event, whose marker transitions open, open, open, closed and
whose final description is exactly the four lines started, `m1`, `m2`,
concluded in order. -/
theorem session_run_single_event (cfg : Config) (t0 t1 t2 t3 : Clock) (m1 m2 : String)
    (s0 : Store)
    (hwf : ∀ e ∈ s0.events, e.id < s0.nextId)
    (hpast : ∀ e ∈ s0.events, e.startMs < t0.ms)
    (h01 : t0.ms ≤ t1.ms) (h12 : t1.ms ≤ t2.ms) (h23 : t2.ms ≤ t3.ms)
    (hw1 : t1.ms - msLookbackWindow ≤ t0.ms)
    (hw2 : t2.ms - msLookbackWindow ≤ t0.ms)
    (hw3 : t3.ms - msLookbackWindow ≤ t0.ms)
    (ha1 : t1.ms - t0.ms ≤ cfg.msUntilInactivity)
    (ha2 : t2.ms - t1.ms ≤ cfg.msUntilInactivity)
    (ha3 : t3.ms - t2.ms ≤ cfg.msUntilInactivity)
    (hn0 : '\n' ∉ (getLogName cfg cfg.activityStarted).data)
    (hn1 : '\n' ∉ m1.data) (hn2 : '\n' ∉ m2.data)
    (hn3 : '\n' ∉ (getLogName cfg cfg.activityConcluded).data) :
    SingleSessionRun cfg t0 t1 t2 t3 m1 m2 s0 := by
  unfold SingleSessionRun
  set e1 : Event := startEvent cfg t0 s0.nextId with he1
  set e2 : Event := applyPatch (activityPatch cfg t1 m1 e1) t1.ms e1 with he2
  set e3 : Event := applyPatch (activityPatch cfg t2 m2 e2) t2.ms e2 with he3
  set e4 : Event := applyPatch (endPatch cfg t3 e3) t3.ms e3 with he4
  have he1id : e1.id = s0.nextId := rfl
  have he2id : e2.id = s0.nextId := rfl
  have he3id : e3.id = s0.nextId := rfl
  have he1start : e1.startMs = t0.ms := rfl
  have he2start : e2.startMs = t0.ms := rfl
  have he3start : e3.startMs = t0.ms := rfl
  have he2upd : e2.updated = .ms t1.ms := rfl
  have he3upd : e3.updated = .ms t2.ms := rfl
  have he1c : e1.completed = some (some "false") := rfl
  have he2c : e2.completed = some (some "false") := rfl
  have he3c : e3.completed = some (some "false") := rfl
  have he4c : e4.completed = some (some "true") := rfl
  have hbase : ∀ b ∈ s0.events, b.id ≠ s0.nextId := fun b hb => Nat.ne_of_lt (hwf b hb)
  -- step 1: logActivity m1 at t1
  have hmax1 : ∀ y ∈ s0.events ++ [e1], y ≠ e1 → y.startMs < e1.startMs := by
    intro y hy hne
    rcases List.mem_append.mp hy with h | h
    · rw [he1start]
      exact hpast y h
    · exact absurd (List.mem_singleton.mp h) hne
  have hres1 : resolveLatestIncomplete t1 (logStart cfg t0 s0) = .ok e1 :=
    resolve_strictmax_open t1 (logStart cfg t0 s0) e1
      (startEvent_open cfg t0 s0.nextId)
      (List.mem_append_right _ (List.mem_singleton.mpr rfl))
      hmax1 hw1 h01
  have hnl1 : hasInactivity cfg e1 t1.ms = false :=
    hasInactivity_of_updated cfg e1 t0.ms t1.ms rfl ha1
  have hrun1 : logActivityAux cfg (fun _ => t1) m1 1 0 (logStart cfg t0 s0) =
      .ok (⟨s0.events ++ [e2], s0.nextId + 1⟩ : Store) := by
    rw [logActivityAux_noLapse_run cfg (fun _ => t1) m1 0 0 _ e1 hres1 hnl1]
    exact congrArg Except.ok (patchStore_append_last s0.events (s0.nextId + 1) e1
      (activityPatch cfg t1 m1 e1) t1.ms (fun b hb => by rw [he1id]; exact hbase b hb))
  -- step 2: logActivity m2 at t2
  have hmax2 : ∀ y ∈ s0.events ++ [e2], y ≠ e2 → y.startMs < e2.startMs := by
    intro y hy hne
    rcases List.mem_append.mp hy with h | h
    · rw [he2start]
      exact hpast y h
    · exact absurd (List.mem_singleton.mp h) hne
  have hres2 : resolveLatestIncomplete t2 (⟨s0.events ++ [e2], s0.nextId + 1⟩ : Store) =
      .ok e2 :=
    resolve_strictmax_open t2 ⟨s0.events ++ [e2], s0.nextId + 1⟩ e2
      ((eventIsOpen_iff e2).mpr he2c)
      (List.mem_append_right _ (List.mem_singleton.mpr rfl))
      hmax2
      (by rw [he2start]; exact hw2)
      (by rw [he2start]; exact le_trans h01 h12)
  have hnl2 : hasInactivity cfg e2 t2.ms = false :=
    hasInactivity_of_updated cfg e2 t1.ms t2.ms he2upd ha2
  have hrun2 : logActivityAux cfg (fun _ => t2) m2 1 0 (⟨s0.events ++ [e2], s0.nextId + 1⟩ : Store) =
      .ok (⟨s0.events ++ [e3], s0.nextId + 1⟩ : Store) := by
    rw [logActivityAux_noLapse_run cfg (fun _ => t2) m2 0 0 _ e2 hres2 hnl2]
    exact congrArg Except.ok (patchStore_append_last s0.events (s0.nextId + 1) e2
      (activityPatch cfg t2 m2 e2) t2.ms (fun b hb => by rw [he2id]; exact hbase b hb))
  -- step 3: logEnd at t3
  have hmax3 : ∀ y ∈ s0.events ++ [e3], y ≠ e3 → y.startMs < e3.startMs := by
    intro y hy hne
    rcases List.mem_append.mp hy with h | h
    · rw [he3start]
      exact hpast y h
    · exact absurd (List.mem_singleton.mp h) hne
  have hres3 : resolveLatestIncomplete t3 (⟨s0.events ++ [e3], s0.nextId + 1⟩ : Store) =
      .ok e3 :=
    resolve_strictmax_open t3 ⟨s0.events ++ [e3], s0.nextId + 1⟩ e3
      ((eventIsOpen_iff e3).mpr he3c)
      (List.mem_append_right _ (List.mem_singleton.mpr rfl))
      hmax3
      (by rw [he3start]; exact hw3)
      (by rw [he3start]; exact le_trans (le_trans h01 h12) h23)
  have hnl3 : hasInactivity cfg e3 t3.ms = false :=
    hasInactivity_of_updated cfg e3 t2.ms t3.ms he3upd ha3
  have hrun3 : logEnd cfg t3 (⟨s0.events ++ [e3], s0.nextId + 1⟩ : Store) =
      .ok (⟨s0.events ++ [e4], s0.nextId + 1⟩ : Store) := by
    rw [logEnd_noLapse_run cfg t3 _ e3 hres3 hnl3]
    exact congrArg Except.ok (patchStore_append_last s0.events (s0.nextId + 1) e3
      (endPatch cfg t3 e3) t3.ms (fun b hb => by rw [he3id]; exact hbase b hb))
  -- the description after each step
  have hd1 : e1.description = addToDescription t0 (getLogName cfg cfg.activityStarted) "" := rfl
  have hd2 : e2.description = addToDescription t1 m1 e1.description := rfl
  have hd3 : e3.description = addToDescription t2 m2 e2.description := rfl
  have hd4 : e4.description = addToDescription t3 (getLogName cfg cfg.activityConcluded)
      e3.description := rfl
  have hD1 : e1.description.data = timeLineChars t0 (getLogName cfg cfg.activityStarted) := by
    rw [hd1, addToDescription_data_of_empty]
  have hD2 : e2.description.data =
      timeLineChars t0 (getLogName cfg cfg.activityStarted) ++ '\n' :: timeLineChars t1 m1 := by
    rw [hd2, addToDescription_data_of_ne t1 m1 e1.description (by
      rw [hd1]; exact addToDescription_ne_empty t0 _ ""), hD1]
  have hD3 : e3.description.data =
      (timeLineChars t0 (getLogName cfg cfg.activityStarted) ++ '\n' :: timeLineChars t1 m1)
        ++ '\n' :: timeLineChars t2 m2 := by
    rw [hd3, addToDescription_data_of_ne t2 m2 e2.description (by
      rw [hd2]; exact addToDescription_ne_empty t1 _ _), hD2]
  have hD4 : e4.description.data =
      ((timeLineChars t0 (getLogName cfg cfg.activityStarted) ++ '\n' :: timeLineChars t1 m1)
        ++ '\n' :: timeLineChars t2 m2)
        ++ '\n' :: timeLineChars t3 (getLogName cfg cfg.activityConcluded) := by
    rw [hd4, addToDescription_data_of_ne t3 _ e3.description (by
      rw [hd3]; exact addToDescription_ne_empty t2 _ _), hD3]
  have hsplit : splitLines e4.description.data =
      [timeLineChars t0 (getLogName cfg cfg.activityStarted),
       timeLineChars t1 m1,
       timeLineChars t2 m2,
       timeLineChars t3 (getLogName cfg cfg.activityConcluded)] := by
    rw [hD4]
    simp only [List.append_assoc, List.cons_append]
    rw [splitLines_append _ _ (timeLineChars_ne_newline t0 _ hn0)]
    rw [splitLines_append _ _ (timeLineChars_ne_newline t1 _ hn1)]
    rw [splitLines_append _ _ (timeLineChars_ne_newline t2 _ hn2)]
    rw [splitLines_of_no_newline _ (timeLineChars_ne_newline t3 _ hn3)]
  exact ⟨e1, e2, e3, e4, _, _, _, rfl, he1c, hrun1, rfl, he2c, hrun2, rfl, he3c,
    hrun3, rfl, he4c, hsplit⟩

/-- Witness for C2: an empty store, the default configuration, one-minute
gaps between the four steps. -/
theorem session_run_single_event_witness :
    SingleSessionRun (defaultStrings "P") ⟨0, 9, 0⟩ ⟨60000, 9, 1⟩ ⟨120000, 9, 2⟩
      ⟨180000, 9, 3⟩ "a" "b" ⟨[], 0⟩ :=
  session_run_single_event (defaultStrings "P") ⟨0, 9, 0⟩ ⟨60000, 9, 1⟩ ⟨120000, 9, 2⟩
    ⟨180000, 9, 3⟩ "a" "b" ⟨[], 0⟩
    (by intro e he; simp at he)
    (by intro e he; simp at he)
    (by decide) (by decide) (by decide) (by decide) (by decide) (by decide)
    (by decide) (by decide) (by decide) (by decide) (by decide) (by decide) (by decide)

end GCalLogger
